import Mathlib

/-!
Shallow embedding of `src/strategies/java-yoshi.ts` (the `JavaYoshi` release
strategy of release-please): commit normalization, the promotion/override
protocol, per-artifact version bumping over a versions map, registry-content
memoization and its error translation, and assembly of the update plan.

External collaborator types (`Version`, `GitHubFileContents`, the updaters,
the source-hosting backend) are modelled opaquely: only the structure the
strategy itself inspects or constructs is represented.
-/

namespace JavaYoshi

/-- A structured note attached to a conventional commit: a title/text pair. -/
structure Note where
  title : String
  text : String
deriving DecidableEq

/-- A parsed conventional commit, as consumed by the strategy.  The
`references` payload is opaque to this strategy and modelled as strings. -/
structure ConventionalCommit where
  sha : String
  message : String
  bareMessage : String
  type : String
  scope : Option String
  breaking : Bool
  notes : List Note
  files : List String
  references : List String
deriving DecidableEq

/-- Modelled from the spec: `Version` (from `../version`, not under the
sources) is a semantic version value serializable to and from text; it is
modelled by its textual form. -/
abbrev Version := String

/-- Modelled from the spec: `Version.parse` parses the textual form; with
versions modelled as their text it is the identity. -/
def Version.parse (s : String) : Version := s

/-- The versions map: an ordered mapping from artifact key to version, in
registry order.  A `none` value models an entry whose current version is
unresolvable (the defensive `!version` branch of `updateVersionsMap`). -/
abbrev VersionsMap := List (String × Option Version)

/-- Modelled from the spec: the raw fetched registry content
(`GitHubFileContents` from the git-file-utils collaborator); only its
parsed text is ever inspected. -/
structure GitHubFileContents where
  parsedContent : String
deriving DecidableEq

/-- A failure of the source-hosting backend fetch: either the distinguished
file-not-found signal (`FileNotFoundError`) or any other failure. -/
inductive FetchError where
  | fileNotFound (path : String) : FetchError
  | other (msg : String) : FetchError
deriving DecidableEq

/-- An error raised by `getVersionsContent`: either the translated
`MissingRequiredFileError` (path, strategy name, repository identifier) or a
re-raised backend failure, unchanged. -/
inductive StrategyError where
  | missingRequiredFile (path : String) (strategy : String) (repository : String) : StrategyError
  | fetch (err : FetchError) : StrategyError
deriving DecidableEq

/-- An extra-file entry from configuration: either a plain path or a
structured descriptor (opaque here; the plan builder skips it). -/
inductive ExtraFile where
  | plain (path : String) : ExtraFile
  | structured (payload : String) : ExtraFile
deriving DecidableEq

/-- Modelled from the spec: the updater objects (`VersionsManifest`,
`JavaUpdate`, `Changelog`) are opaque text-patching strategies; each is
modelled by its constructor together with the context it was built with. -/
inductive Updater where
  | versionsManifest (version : Version) (versionsMap : VersionsMap) : Updater
  | javaUpdate (version : Version) (versionsMap : VersionsMap) (isSnapshot : Bool) : Updater
  | changelog (version : Version) (changelogEntry : String) : Updater
deriving DecidableEq

/-- An update descriptor: target path, create-if-missing flag, optional
cached original content, and the updater reference. -/
structure Update where
  path : String
  createIfMissing : Bool
  cachedFileContents : Option GitHubFileContents
  updater : Updater
deriving DecidableEq

/-- The slice of the strategy instance's configuration that
`java-yoshi.ts` reads: module root path (`this.path`), target branch,
changelog path, the changelog-suppression flag, the extra-file list, and
the repository identifier. -/
structure StrategyConfig where
  modulePath : String
  targetBranch : String
  changelogPath : String
  skipChangelog : Bool
  extraFiles : List ExtraFile
  owner : String
  repo : String
deriving DecidableEq

/-- The options record handed to `buildUpdates`. -/
structure JavaBuildUpdatesOption where
  newVersion : Version
  versionsMap : VersionsMap
  isSnapshot : Bool
  changelogEntry : String
deriving DecidableEq

/-- Modelled from the spec: `addPath` from the base strategy class (not
under the sources) resolves a file path relative to the module root path. -/
def addPath (modulePath : String) (file : String) : String :=
  modulePath ++ "/" ++ file

/-- `isPromotionNote` from `java-yoshi.ts`: title exactly "RELEASE AS" and
text exactly "1.0.0". -/
def isPromotionNote (note : Note) : Bool :=
  note.title == "RELEASE AS" && note.text == "1.0.0"

/-- `isPromotionCommit` from `java-yoshi.ts`: some note is a promotion
note. -/
def isPromotionCommit (commit : ConventionalCommit) : Bool :=
  commit.notes.any isPromotionNote

/-- Split a character list at its last hyphen: `some (a, b)` with
`cs = a ++ '-' :: b` and `b` hyphen-free, or `none` if there is no hyphen.
This is where the greedy `^.*-` of `VERSIONED_ARTIFACT_REGEX` anchors. -/
def splitAtLastHyphen : List Char → Option (List Char × List Char)
  | [] => none
  | c :: cs =>
    match splitAtLastHyphen cs with
    | some (a, b) => some (c :: a, b)
    | none => if c = '-' then some ([], cs) else none

/-- A JavaScript regular-expression LineTerminator, the characters `.`
does not match: LF, CR, LINE SEPARATOR (U+2028) and PARAGRAPH SEPARATOR
(U+2029). -/
def isLineTerminator (c : Char) : Bool :=
  c = '\n' || c = '\r' || c = '\u2028' || c = '\u2029'

/-- `isStableArtifact` from `java-yoshi.ts`.  The artifact matches
`VERSIONED_ARTIFACT_REGEX = ^.*-(v\d+[^-]*)$` exactly when it has a hyphen,
everything before the last hyphen is free of LineTerminators (`.` does not
match them; `[^-]` does), and the segment after the last hyphen is `v`
followed by at least one digit.  That captured segment then matches
`VERSION_REGEX = ^v\d+(.*)$` with a truthy group exactly when the remainder
after the maximal digit run is non-empty and LineTerminator-free. -/
def isStableArtifact (artifact : String) : Bool :=
  match splitAtLastHyphen artifact.toList with
  | none => true
  | some (a, b) =>
    if a.any isLineTerminator then true
    else
      match b with
      | [] => true
      | c :: rest =>
        if c = 'v' then
          match rest with
          | [] => true
          | d :: _ =>
            if d.isDigit then
              let r := rest.dropWhile Char.isDigit
              if r.isEmpty then true
              else if r.any isLineTerminator then true
              else false
            else true
        else true

/-- The synthetic commit `postProcessCommits` pushes for an empty input. -/
def fakeCommit : ConventionalCommit :=
  { sha := "fake"
    message := "fake commit"
    bareMessage := "fake commit"
    type := "fake"
    scope := none
    breaking := false
    notes := []
    files := []
    references := [] }

/-- `JavaYoshi.postProcessCommits`: push a fake commit when the input is
empty (forcing a SNAPSHOT release), otherwise return the input unchanged. -/
def postProcessCommits (commits : List ConventionalCommit) : List ConventionalCommit :=
  if commits.length = 0 then commits ++ [fakeCommit] else commits

/-- The `modifiedCommits` list built by `JavaYoshi.updateVersionsMap`: every
promotion commit has its promotion notes filtered out; other commits are
pushed unchanged. -/
def buildModifiedCommits (conventionalCommits : List ConventionalCommit) :
    List ConventionalCommit :=
  conventionalCommits.map fun commit =>
    if isPromotionCommit commit then
      { commit with notes := commit.notes.filter fun note => !isPromotionNote note }
    else commit

/-- `JavaYoshi.updateVersionsMap`.  The pluggable versioning strategy's
`bump` is a function parameter.  Per key, in map order: an unresolvable
current version is skipped (warned, left in place); under a promotion, a
stable key is hard-set to "1.0.0"; otherwise the value is bumped against
the modified commit list. -/
def updateVersionsMap (bump : Version → List ConventionalCommit → Version)
    (versionsMap : VersionsMap)
    (conventionalCommits : List ConventionalCommit) : VersionsMap :=
  let isPromotion := conventionalCommits.any isPromotionCommit
  let modifiedCommits := buildModifiedCommits conventionalCommits
  versionsMap.map fun entry =>
    match entry with
    | (versionKey, none) => (versionKey, none)
    | (versionKey, some version) =>
      if isPromotion && isStableArtifact versionKey then
        (versionKey, some (Version.parse "1.0.0"))
      else
        (versionKey, some (bump version modifiedCommits))

/-- `JavaYoshi.getVersionsContent`, with the instance field
`versionsContent` passed and returned explicitly and the backend
`getFileContentsOnBranch` a function parameter.  Returns the content
together with the new field state.  A `FileNotFoundError` from the backend
is translated into `MissingRequiredFileError` with the resolved path, the
class name, and `owner/repo`; any other failure is re-raised unchanged. -/
def getVersionsContent (config : StrategyConfig)
    (github : String → String → Except FetchError GitHubFileContents)
    (versionsContent : Option GitHubFileContents) :
    Except StrategyError (GitHubFileContents × Option GitHubFileContents) :=
  match versionsContent with
  | some contents => Except.ok (contents, some contents)
  | none =>
    match github (addPath config.modulePath "versions.txt") config.targetBranch with
    | Except.ok contents => Except.ok (contents, some contents)
    | Except.error (FetchError.fileNotFound _) =>
      Except.error (StrategyError.missingRequiredFile
        (addPath config.modulePath "versions.txt")
        "JavaYoshi"
        (config.owner ++ "/" ++ config.repo))
    | Except.error err => Except.error (StrategyError.fetch err)

/-- The plain paths among the configured extra files, in order. -/
def plainExtraPaths (extraFiles : List ExtraFile) : List String :=
  extraFiles.filterMap fun extraFile =>
    match extraFile with
    | ExtraFile.plain p => some p
    | ExtraFile.structured _ => none

/-- `JavaYoshi.buildUpdates`.  The three file searches are backend calls;
their results (`pomFiles`, `buildFiles`, `dependenciesFiles`) are passed as
parameters, as is the cached `versionsContent` field.  Descriptors are
pushed in source order: registry, pom.xml files, build.gradle files,
dependencies.properties files, plain extra files, then the changelog when
not a snapshot and not suppressed. -/
def buildUpdates (config : StrategyConfig)
    (versionsContent : Option GitHubFileContents)
    (pomFiles buildFiles dependenciesFiles : List String)
    (options : JavaBuildUpdatesOption) : List Update :=
  let version := options.newVersion
  let versionsMap := options.versionsMap
  { path := addPath config.modulePath "versions.txt"
    createIfMissing := false
    cachedFileContents := versionsContent
    updater := Updater.versionsManifest version versionsMap }
  :: (pomFiles.map fun p =>
      { path := addPath config.modulePath p
        createIfMissing := false
        cachedFileContents := none
        updater := Updater.javaUpdate version versionsMap options.isSnapshot })
  ++ (buildFiles.map fun p =>
      { path := addPath config.modulePath p
        createIfMissing := false
        cachedFileContents := none
        updater := Updater.javaUpdate version versionsMap options.isSnapshot })
  ++ (dependenciesFiles.map fun p =>
      { path := addPath config.modulePath p
        createIfMissing := false
        cachedFileContents := none
        updater := Updater.javaUpdate version versionsMap options.isSnapshot })
  ++ (config.extraFiles.filterMap fun extraFile =>
      match extraFile with
      | ExtraFile.structured _ => none
      | ExtraFile.plain p =>
        some { path := p
               createIfMissing := false
               cachedFileContents := none
               updater := Updater.javaUpdate version versionsMap options.isSnapshot })
  ++ (if !options.isSnapshot && !config.skipChangelog then
      [{ path := addPath config.modulePath config.changelogPath
         createIfMissing := true
         cachedFileContents := none
         updater := Updater.changelog version options.changelogEntry }]
      else [])

/-- `JavaYoshi.initialReleaseVersion`: a first release is seeded at
"0.1.0". -/
def initialReleaseVersion : Version :=
  Version.parse "0.1.0"

/-- Does an update descriptor carry the changelog updater? -/
def Update.isChangelogUpdate (u : Update) : Bool :=
  match u.updater with
  | Updater.changelog _ _ => true
  | _ => false

/-- Concrete sample inputs used to instantiate the theorems below. -/
def promotionNote : Note :=
  { title := "RELEASE AS", text := "1.0.0" }

/-- A non-promotion note. -/
def breakingNote : Note :=
  { title := "BREAKING CHANGE", text := "renamed api" }

/-- A commit carrying both a promotion note and an ordinary note. -/
def promotionCommit : ConventionalCommit :=
  { sha := "abc123"
    message := "feat: promote"
    bareMessage := "promote"
    type := "feat"
    scope := none
    breaking := false
    notes := [promotionNote, breakingNote]
    files := ["a.java"]
    references := [] }

/-- `promotionCommit` with its promotion note stripped. -/
def strippedPromotionCommit : ConventionalCommit :=
  { promotionCommit with notes := [breakingNote] }

/-- A sample registry content. -/
def sampleContents : GitHubFileContents :=
  { parsedContent := "core 1.2.3" }

/-- A sample strategy configuration. -/
def sampleConfig : StrategyConfig :=
  { modulePath := "module"
    targetBranch := "main"
    changelogPath := "CHANGELOG.md"
    skipChangelog := false
    extraFiles := [ExtraFile.plain "extra/pom.xml"]
    owner := "googleapis"
    repo := "java-foo" }

/-- Sample `buildUpdates` options, not a snapshot. -/
def sampleOptions : JavaBuildUpdatesOption :=
  { newVersion := Version.parse "1.2.3"
    versionsMap := [("core", some (Version.parse "1.2.3"))]
    isSnapshot := false
    changelogEntry := "entry" }

/-- A backend on which every fetch fails with the file-not-found signal. -/
def githubNotFound : String → String → Except FetchError GitHubFileContents :=
  fun p _ => Except.error (FetchError.fileNotFound p)

/-- A backend on which every fetch succeeds with `sampleContents`. -/
def githubOk : String → String → Except FetchError GitHubFileContents :=
  fun _ _ => Except.ok sampleContents

/-- A backend on which every fetch fails with a non-file-not-found error. -/
def githubDown : String → String → Except FetchError GitHubFileContents :=
  fun _ _ => Except.error (FetchError.other "backend unavailable")

/-! Helper lemmas about the embedded definitions. -/

theorem splitAtLastHyphen_eq_none {cs : List Char} (h : '-' ∉ cs) :
    splitAtLastHyphen cs = none := by
  induction cs with
  | nil => rfl
  | cons c t ih =>
    have ht : splitAtLastHyphen t = none :=
      ih fun hm => h (List.mem_cons_of_mem c hm)
    have hc : ¬(c = '-') := fun hc => h (hc ▸ List.mem_cons_self c t)
    simp [splitAtLastHyphen, ht, hc]

theorem splitAtLastHyphen_append (xs ys : List Char) (h : '-' ∉ ys) :
    splitAtLastHyphen (xs ++ '-' :: ys) = some (xs, ys) := by
  induction xs with
  | nil => simp [splitAtLastHyphen, splitAtLastHyphen_eq_none h]
  | cons c t ih => simp [splitAtLastHyphen, ih]

theorem any_isPromotionCommit_of_note {C : List ConventionalCommit}
    (h : ∃ c ∈ C, ∃ n ∈ c.notes, n.title = "RELEASE AS" ∧ n.text = "1.0.0") :
    C.any isPromotionCommit = true := by
  obtain ⟨c, hc, n, hn, ht, htx⟩ := h
  rw [List.any_eq_true]
  refine ⟨c, hc, ?_⟩
  rw [isPromotionCommit, List.any_eq_true]
  exact ⟨n, hn, by simp [isPromotionNote, ht, htx]⟩

/-! Claim theorems, one per claim, each with its witness where needed. -/

/-- C1: if some commit in `C` carries a note with title exactly "RELEASE AS"
and text exactly "1.0.0", then after `updateVersionsMap` every key of `M`
with a resolvable current version that `isStableArtifact` classifies as
stable maps to version "1.0.0", for every pluggable bump strategy and
regardless of the other commits' content. -/
theorem updateVersionsMap_promotion_sets_stable_keys
    (bump : Version → List ConventionalCommit → Version)
    (M : VersionsMap) (C : List ConventionalCommit)
    (hprom : ∃ c ∈ C, ∃ n ∈ c.notes, n.title = "RELEASE AS" ∧ n.text = "1.0.0")
    (k : String) (v : Version)
    (hk : (k, some v) ∈ M) (hs : isStableArtifact k = true) :
    (k, some (Version.parse "1.0.0")) ∈ updateVersionsMap bump M C := by
  have hany := any_isPromotionCommit_of_note hprom
  simp only [updateVersionsMap]
  refine List.mem_map.mpr ⟨(k, some v), hk, ?_⟩
  simp [hany, hs]

/-- C1 witness: a concrete promotion run maps the stable key "core"
to "1.0.0". -/
theorem updateVersionsMap_promotion_sets_stable_keys_witness :
    ("core", some (Version.parse "1.0.0")) ∈
      updateVersionsMap (fun v _ => v) [("core", some "2.3.4")] [promotionCommit] :=
  updateVersionsMap_promotion_sets_stable_keys (fun v _ => v) _ _
    ⟨promotionCommit, by decide, promotionNote, by decide, by decide, by decide⟩
    "core" "2.3.4" (by decide) (by decide)

/-- C2: `updateVersionsMap` preserves the key list of the map exactly (no
key added, none removed, order kept), and a key whose current version is
unresolvable is left in the map with its old (absent) value. -/
theorem updateVersionsMap_key_set
    (bump : Version → List ConventionalCommit → Version)
    (M : VersionsMap) (C : List ConventionalCommit) :
    (updateVersionsMap bump M C).map Prod.fst = M.map Prod.fst ∧
    ∀ k, (k, (none : Option Version)) ∈ M →
      (k, (none : Option Version)) ∈ updateVersionsMap bump M C := by
  constructor
  · simp only [updateVersionsMap, List.map_map]
    apply List.map_congr_left
    intro a _
    obtain ⟨key, val⟩ := a
    cases val with
    | none => rfl
    | some v =>
      simp only [Function.comp]
      split <;> rfl
  · intro k hk
    simp only [updateVersionsMap]
    exact List.mem_map.mpr ⟨(k, none), hk, rfl⟩

/-- C2 witness: a concrete run preserves the key list and keeps the
unresolvable key "gone" with its absent value. -/
theorem updateVersionsMap_key_set_witness :
    ("gone", (none : Option Version)) ∈
      updateVersionsMap (fun v _ => v)
        [("core", some "1.2.3"), ("gone", none)] [promotionCommit] :=
  (updateVersionsMap_key_set (fun v _ => v)
    [("core", some "1.2.3"), ("gone", none)] [promotionCommit]).2 "gone" (by decide)

/-- C7: `postProcessCommits` on the empty list returns exactly one
synthetic commit (type "fake", no scope, not breaking, no notes, no files,
sentinel sha "fake"), and returns any non-empty list unchanged. -/
theorem postProcessCommits_spec :
    postProcessCommits [] =
      [{ sha := "fake"
         message := "fake commit"
         bareMessage := "fake commit"
         type := "fake"
         scope := none
         breaking := false
         notes := []
         files := []
         references := [] }] ∧
    ∀ (c : ConventionalCommit) (cs : List ConventionalCommit),
      postProcessCommits (c :: cs) = c :: cs := by
  refine ⟨rfl, ?_⟩
  intro c cs
  simp [postProcessCommits]

/-- C9: the modified commit list handed to the pluggable bump strategy by
`updateVersionsMap` has, per input commit, exactly the promotion notes
(title "RELEASE AS", text "1.0.0") removed with every other field kept; no
commit in it is a promotion commit; and `updateVersionsMap` hands `bump`
exactly that list. -/
theorem updateVersionsMap_strips_promotion_notes (C : List ConventionalCommit) :
    buildModifiedCommits C =
      C.map (fun c => { c with notes := c.notes.filter fun n => !isPromotionNote n }) ∧
    (∀ c ∈ buildModifiedCommits C, isPromotionCommit c = false) ∧
    ∀ (bump : Version → List ConventionalCommit → Version) (M : VersionsMap),
      updateVersionsMap bump M C =
        updateVersionsMap (fun v _ => bump v (buildModifiedCommits C)) M C := by
  refine ⟨?_, ?_, ?_⟩
  · unfold buildModifiedCommits
    apply List.map_congr_left
    intro c _
    by_cases h : isPromotionCommit c
    · simp [h]
    · have hall : ∀ n ∈ c.notes, ¬isPromotionNote n = true := by
        rw [isPromotionCommit] at h
        simpa using List.any_eq_false.mp (Bool.not_eq_true _ ▸ h)
      have : c.notes.filter (fun n => !isPromotionNote n) = c.notes :=
        List.filter_eq_self.mpr fun n hn => by simp [hall n hn]
      simp [h, this]
  · intro c hc
    obtain ⟨c0, _, rfl⟩ := List.mem_map.mp hc
    by_cases h : isPromotionCommit c0 = true
    · rw [if_pos h, isPromotionCommit, List.any_eq_false]
      intro n hn
      have hn2 : n ∈ List.filter (fun note => !isPromotionNote note) c0.notes := hn
      have h2 := (List.mem_filter.mp hn2).2
      simp only [Bool.not_eq_true'] at h2
      simp [h2]
    · rw [if_neg h]
      simpa using h
  · intro bump M
    rfl

/-- C9 witness: on a concrete promotion commit, the stripped commit keeps
the other note and carries no promotion note. -/
theorem updateVersionsMap_strips_promotion_notes_witness :
    isPromotionCommit strippedPromotionCommit = false :=
  (updateVersionsMap_strips_promotion_notes [promotionCommit]).2.1
    strippedPromotionCommit (by decide)

/-- C5: when the registry fetch fails with the file-not-found signal, the
first call to `getVersionsContent` raises the "required file missing"
error carrying the resolved registry path, the strategy name "JavaYoshi"
and the repository identifier "owner/repo"; any other fetch failure is
re-raised unchanged. -/
theorem getVersionsContent_error_translation
    (config : StrategyConfig)
    (github : String → String → Except FetchError GitHubFileContents) :
    (∀ p, github (addPath config.modulePath "versions.txt") config.targetBranch =
        Except.error (FetchError.fileNotFound p) →
      getVersionsContent config github none =
        Except.error (StrategyError.missingRequiredFile
          (addPath config.modulePath "versions.txt") "JavaYoshi"
          (config.owner ++ "/" ++ config.repo))) ∧
    (∀ msg, github (addPath config.modulePath "versions.txt") config.targetBranch =
        Except.error (FetchError.other msg) →
      getVersionsContent config github none =
        Except.error (StrategyError.fetch (FetchError.other msg))) := by
  constructor <;> intro x h <;> simp only [getVersionsContent, h]

/-- C5 witness: concrete backends exercising both the translated
missing-file error and the unchanged pass-through error. -/
theorem getVersionsContent_error_translation_witness :
    getVersionsContent sampleConfig githubNotFound none =
      Except.error (StrategyError.missingRequiredFile
        "module/versions.txt" "JavaYoshi" "googleapis/java-foo") ∧
    getVersionsContent sampleConfig githubDown none =
      Except.error (StrategyError.fetch (FetchError.other "backend unavailable")) :=
  ⟨(getVersionsContent_error_translation sampleConfig githubNotFound).1
      "module/versions.txt" rfl,
   (getVersionsContent_error_translation sampleConfig githubDown).2
      "backend unavailable" rfl⟩

/-- C6: `getVersionsContent` is memoized: a successful first call caches
exactly the returned content, and with that cache any subsequent call —
for every backend, including one that would now fail — returns the cached
content and state unchanged, so the backend is not consulted again. -/
theorem getVersionsContent_memoized
    (config : StrategyConfig)
    (github : String → String → Except FetchError GitHubFileContents)
    (c : GitHubFileContents) (st : Option GitHubFileContents)
    (h : getVersionsContent config github none = Except.ok (c, st)) :
    st = some c ∧
    ∀ github2 : String → String → Except FetchError GitHubFileContents,
      getVersionsContent config github2 st = Except.ok (c, st) := by
  have hst : st = some c := by
    simp only [getVersionsContent] at h
    cases heq : github (addPath config.modulePath "versions.txt") config.targetBranch with
    | ok contents =>
      rw [heq] at h
      simp only [Except.ok.injEq, Prod.mk.injEq] at h
      rw [← h.1, ← h.2]
    | error e =>
      cases e <;> rw [heq] at h <;> simp at h
  subst hst
  exact ⟨rfl, fun github2 => rfl⟩

/-- C6 witness: after a successful fetch, a second call on the cached state
returns the same content even against a failing backend. -/
theorem getVersionsContent_memoized_witness :
    getVersionsContent sampleConfig githubDown (some sampleContents) =
      Except.ok (sampleContents, some sampleContents) :=
  (getVersionsContent_memoized sampleConfig githubOk sampleContents
    (some sampleContents) rfl).2 githubDown

theorem filterMap_extra_eq_map (efs : List ExtraFile) (mk : String → Update) :
    (efs.filterMap fun extraFile =>
      match extraFile with
      | ExtraFile.structured _ => none
      | ExtraFile.plain p => some (mk p)) = (plainExtraPaths efs).map mk := by
  induction efs with
  | nil => rfl
  | cons e t ih =>
    cases e <;> simp [plainExtraPaths, List.filterMap_cons] at ih ⊢ <;> simpa using ih

theorem buildUpdates_eq (config : StrategyConfig)
    (vc : Option GitHubFileContents)
    (poms builds deps : List String) (opts : JavaBuildUpdatesOption) :
    buildUpdates config vc poms builds deps opts =
      { path := addPath config.modulePath "versions.txt"
        createIfMissing := false
        cachedFileContents := vc
        updater := Updater.versionsManifest opts.newVersion opts.versionsMap }
      :: (poms.map fun p =>
          { path := addPath config.modulePath p
            createIfMissing := false
            cachedFileContents := none
            updater := Updater.javaUpdate opts.newVersion opts.versionsMap opts.isSnapshot })
      ++ (builds.map fun p =>
          { path := addPath config.modulePath p
            createIfMissing := false
            cachedFileContents := none
            updater := Updater.javaUpdate opts.newVersion opts.versionsMap opts.isSnapshot })
      ++ (deps.map fun p =>
          { path := addPath config.modulePath p
            createIfMissing := false
            cachedFileContents := none
            updater := Updater.javaUpdate opts.newVersion opts.versionsMap opts.isSnapshot })
      ++ ((plainExtraPaths config.extraFiles).map fun p =>
          { path := p
            createIfMissing := false
            cachedFileContents := none
            updater := Updater.javaUpdate opts.newVersion opts.versionsMap opts.isSnapshot })
      ++ (if !opts.isSnapshot && !config.skipChangelog then
          [{ path := addPath config.modulePath config.changelogPath
             createIfMissing := true
             cachedFileContents := none
             updater := Updater.changelog opts.newVersion opts.changelogEntry }]
          else []) := by
  simp only [buildUpdates]
  rw [filterMap_extra_eq_map]

/-- C3: `buildUpdates` returns the descriptors in the fixed order: the
registry descriptor first (`createIfMissing = false`, carrying the cached
content), then one descriptor per pom.xml path, per build.gradle path and
per dependencies.properties path, then one per plain extra-file path, and
the changelog descriptor (`createIfMissing = true`) last exactly when not
a snapshot and not suppressed; concretely, with one pom.xml, one
build.gradle, no dependencies.properties, one plain extra file, not a
snapshot and changelog not suppressed the plan has length 5 with the
changelog descriptor last. -/
theorem buildUpdates_ordered_plan (config : StrategyConfig)
    (vc : Option GitHubFileContents)
    (poms builds deps : List String) (opts : JavaBuildUpdatesOption) :
    (buildUpdates config vc poms builds deps opts =
      { path := addPath config.modulePath "versions.txt"
        createIfMissing := false
        cachedFileContents := vc
        updater := Updater.versionsManifest opts.newVersion opts.versionsMap }
      :: (poms.map fun p =>
          { path := addPath config.modulePath p
            createIfMissing := false
            cachedFileContents := none
            updater := Updater.javaUpdate opts.newVersion opts.versionsMap opts.isSnapshot })
      ++ (builds.map fun p =>
          { path := addPath config.modulePath p
            createIfMissing := false
            cachedFileContents := none
            updater := Updater.javaUpdate opts.newVersion opts.versionsMap opts.isSnapshot })
      ++ (deps.map fun p =>
          { path := addPath config.modulePath p
            createIfMissing := false
            cachedFileContents := none
            updater := Updater.javaUpdate opts.newVersion opts.versionsMap opts.isSnapshot })
      ++ ((plainExtraPaths config.extraFiles).map fun p =>
          { path := p
            createIfMissing := false
            cachedFileContents := none
            updater := Updater.javaUpdate opts.newVersion opts.versionsMap opts.isSnapshot })
      ++ (if !opts.isSnapshot && !config.skipChangelog then
          [{ path := addPath config.modulePath config.changelogPath
             createIfMissing := true
             cachedFileContents := none
             updater := Updater.changelog opts.newVersion opts.changelogEntry }]
          else [])) ∧
    (buildUpdates sampleConfig (some sampleContents)
      ["sub/pom.xml"] ["sub/build.gradle"] [] sampleOptions).length = 5 ∧
    (buildUpdates sampleConfig (some sampleContents)
      ["sub/pom.xml"] ["sub/build.gradle"] [] sampleOptions).getLast? =
      some { path := "module/CHANGELOG.md"
             createIfMissing := true
             cachedFileContents := none
             updater := Updater.changelog (Version.parse "1.2.3") "entry" } :=
  ⟨buildUpdates_eq config vc poms builds deps opts, by decide, by decide⟩

/-- C8: the number of changelog descriptors in the plan is one exactly
when `isSnapshot` is false and changelog generation is not suppressed, and
zero otherwise; in particular with `isSnapshot = true` the plan contains
no changelog descriptor regardless of the suppression flag. -/
theorem buildUpdates_snapshot_no_changelog (config : StrategyConfig)
    (vc : Option GitHubFileContents)
    (poms builds deps : List String) (opts : JavaBuildUpdatesOption) :
    (buildUpdates config vc poms builds deps opts).countP Update.isChangelogUpdate =
      (if !opts.isSnapshot && !config.skipChangelog then 1 else 0) ∧
    (buildUpdates config vc poms builds deps
      { opts with isSnapshot := true }).countP Update.isChangelogUpdate = 0 := by
  have key : ∀ o : JavaBuildUpdatesOption,
      (buildUpdates config vc poms builds deps o).countP Update.isChangelogUpdate =
        (if !o.isSnapshot && !config.skipChangelog then 1 else 0) := by
    intro o
    rw [buildUpdates_eq]
    simp only [List.countP_cons, List.countP_append, List.countP_map]
    simp [Update.isChangelogUpdate, Function.comp, List.countP_eq_zero]
    split <;> simp [List.countP_cons, Update.isChangelogUpdate]
  exact ⟨key opts, by rw [key]; rfl⟩

/-- C10: mapping each descriptor to its path, the plan resolves the
registry, every discovered build file and the changelog relative to the
module root via `addPath`, while every plain extra-file entry is used
verbatim as the target path, unprefixed. -/
theorem buildUpdates_extra_paths_verbatim (config : StrategyConfig)
    (vc : Option GitHubFileContents)
    (poms builds deps : List String) (opts : JavaBuildUpdatesOption) :
    (buildUpdates config vc poms builds deps opts).map Update.path =
      (addPath config.modulePath "versions.txt"
        :: (poms ++ builds ++ deps).map (addPath config.modulePath))
      ++ plainExtraPaths config.extraFiles
      ++ (if !opts.isSnapshot && !config.skipChangelog then
          [addPath config.modulePath config.changelogPath] else []) := by
  rw [buildUpdates_eq]
  simp [apply_ite (List.map Update.path), List.append_assoc, Function.comp_def]

theorem dropWhile_digits_eq_nil {ds : List Char} (hd : ∀ c ∈ ds, c.isDigit = true) :
    ds.dropWhile Char.isDigit = [] := by
  induction ds with
  | nil => rfl
  | cons d t ih =>
    rw [List.dropWhile_cons]
    simp [hd d (List.mem_cons_self d t), ih fun c hc => hd c (List.mem_cons_of_mem d hc)]

theorem isStableArtifact_of_no_hyphen (s : String) (h : '-' ∉ s.toList) :
    isStableArtifact s = true := by
  have h2 : '-' ∉ s.data := h
  simp [isStableArtifact, splitAtLastHyphen_eq_none h2]

theorem isStableArtifact_digits_only (base : String) (ds : List Char)
    (hne : ds ≠ []) (hd : ∀ c ∈ ds, c.isDigit = true) :
    isStableArtifact (base ++ String.mk ('-' :: 'v' :: ds)) = true := by
  have hnohyp : '-' ∉ 'v' :: ds := by
    intro hm
    rcases List.mem_cons.mp hm with h1 | h2
    · exact absurd h1 (by decide)
    · exact absurd (hd _ h2) (by decide)
  have hsplit : splitAtLastHyphen (base.data ++ '-' :: 'v' :: ds)
      = some (base.data, 'v' :: ds) :=
    splitAtLastHyphen_append _ _ hnohyp
  cases ds with
  | nil => exact absurd rfl hne
  | cons d t =>
    have hdd := hd d (List.mem_cons_self d t)
    by_cases hterm : ∃ x ∈ base.data, isLineTerminator x = true
    · simp [isStableArtifact, hsplit, hterm]
    · simp [isStableArtifact, hsplit, hterm, hdd]
      exact Or.inl fun x hx => hd x (List.mem_cons_of_mem d hx)

theorem isStableArtifact_prestable (base : String) (ds : List Char)
    (qh : Char) (qt : List Char)
    (hne : ds ≠ []) (hd : ∀ c ∈ ds, c.isDigit = true)
    (hqh : qh.isDigit = false) (hqhyp : '-' ∉ qh :: qt)
    (hqterm : ∀ c ∈ qh :: qt, isLineTerminator c = false)
    (hbterm : ∀ c ∈ base.toList, isLineTerminator c = false) :
    isStableArtifact (base ++ String.mk ('-' :: 'v' :: (ds ++ qh :: qt))) = false := by
  have hnohyp : '-' ∉ 'v' :: (ds ++ qh :: qt) := by
    intro hm
    rcases List.mem_cons.mp hm with h1 | h2
    · exact absurd h1 (by decide)
    · rcases List.mem_append.mp h2 with h3 | h4
      · exact absurd (hd _ h3) (by decide)
      · exact hqhyp h4
  have hsplit : splitAtLastHyphen (base.data ++ '-' :: 'v' :: (ds ++ qh :: qt))
      = some (base.data, 'v' :: (ds ++ qh :: qt)) :=
    splitAtLastHyphen_append _ _ hnohyp
  have hbex : ¬∃ x, x ∈ base.data ∧ isLineTerminator x = true := by
    rintro ⟨x, hx, ht⟩
    rw [hbterm x hx] at ht
    exact Bool.false_ne_true ht
  have hqex : ¬∃ x, x ∈ qh :: qt ∧ isLineTerminator x = true := by
    rintro ⟨x, hx, ht⟩
    rw [hqterm x hx] at ht
    exact Bool.false_ne_true ht
  cases ds with
  | nil => exact absurd rfl hne
  | cons d t =>
    have hdd := hd d (List.mem_cons_self d t)
    have hnotall : ¬∀ x ∈ (d :: t) ++ qh :: qt, x.isDigit = true := by
      intro hall
      have := hall qh (List.mem_append_right _ (List.mem_cons_self qh qt))
      rw [hqh] at this
      exact Bool.false_ne_true this
    have hdrop : ((d :: t) ++ qh :: qt).dropWhile Char.isDigit = qh :: qt := by
      rw [List.dropWhile_append, dropWhile_digits_eq_nil hd]
      simp [List.dropWhile_cons, hqh]
    simp only [List.cons_append] at hdrop hnotall hsplit
    simp [isStableArtifact, hsplit, hbex, hdd, hdrop, hnotall, hqex]
    exact ⟨hqterm qh (List.mem_cons_self qh qt),
      fun x hx => hqterm x (List.mem_cons_of_mem qh hx)⟩

/-- C4: `isStableArtifact` is true for a key with no "-v digits qualifier"
suffix (in particular any hyphen-free key and any key whose last
hyphen-separated segment is "v" followed by digits only, i.e. an empty
qualifier), false when the qualifier after the digit run is non-empty,
hyphen-free and matchable by the regexes (no JS LineTerminator in it, nor
before the last hyphen), and true when the would-be qualifier contains a
hyphen; concretely "core" and "core-v2" are stable, "core-v2beta" is not,
and "core-v2-beta" is stable. -/
theorem isStableArtifact_classification :
    isStableArtifact "core" = true ∧
    isStableArtifact "core-v2" = true ∧
    isStableArtifact "core-v2beta" = false ∧
    isStableArtifact "core-v2-beta" = true ∧
    (∀ s : String, '-' ∉ s.toList → isStableArtifact s = true) ∧
    (∀ (base : String) (ds : List Char), ds ≠ [] → (∀ c ∈ ds, c.isDigit = true) →
      isStableArtifact (base ++ String.mk ('-' :: 'v' :: ds)) = true) ∧
    (∀ (base : String) (ds : List Char) (qh : Char) (qt : List Char),
      ds ≠ [] → (∀ c ∈ ds, c.isDigit = true) → qh.isDigit = false →
      '-' ∉ qh :: qt → (∀ c ∈ qh :: qt, isLineTerminator c = false) →
      (∀ c ∈ base.toList, isLineTerminator c = false) →
      isStableArtifact (base ++ String.mk ('-' :: 'v' :: (ds ++ qh :: qt))) = false) :=
  ⟨by decide, by decide, by decide, by decide,
   isStableArtifact_of_no_hyphen, isStableArtifact_digits_only, isStableArtifact_prestable⟩

/-- C4 witness: the pre-stable case at a concrete key "core-v2rc1". -/
theorem isStableArtifact_classification_witness :
    isStableArtifact ("core" ++ String.mk ('-' :: 'v' :: (['2'] ++ 'r' :: ['c', '1']))) =
      false :=
  isStableArtifact_classification.2.2.2.2.2.2 "core" ['2'] 'r' ['c', '1']
    (by decide) (by decide) (by decide) (by decide) (by decide) (by decide)

end JavaYoshi
